import Mathlib

/-!
Verification of the layout-reconstruction core of the PDF → DOCX converter
(`pdf_to_word/converter.py` and `pdf_to_word/cli.py`).

The Python source is shallowly embedded below.  Real-number page coordinates
are modelled as exact rationals (`ℚ`); Python `int(...)` truncation toward
zero is `py_trunc`, Python bankers `round(...)` is `py_round`.  PyMuPDF
`fitz.Rect` values become the `Rect` structure with the documented `fitz`
semantics for `is_empty`, intersection, union, `intersects` and `contains`.
Colours are carried through as opaque numeric tokens: the hex-string
formatting of `_color_to_hex` is presentational and plays no role in any
verified property.  DOCX XML emission is modelled by the `Element` datatype:
one constructor per kind of floating object the converter appends to the
anchor paragraph, carrying exactly the numeric data the XML would carry.
-/

-- ── Unit helpers (converter.py lines 31–38) ─────────────────────────────────

/-- `_PT_TO_EMU = 12700`: 1 pt = 12 700 EMU. -/
def PT_TO_EMU : ℕ := 12700

/-- Python `int(q)`: truncation toward zero. -/
def py_trunc (q : ℚ) : ℤ := if q < 0 then ⌈q⌉ else ⌊q⌋

/-- Python `round(q)`: round half to even. -/
def py_round (q : ℚ) : ℤ :=
  let f : ℤ := ⌊q⌋
  let d : ℚ := q - f
  if d < 1/2 then f
  else if 1/2 < d then f + 1
  else if f % 2 = 0 then f else f + 1

/-- `_pt2emu(pt) = int(pt * _PT_TO_EMU)`. -/
def pt2emu (pt : ℚ) : ℤ := py_trunc (pt * (PT_TO_EMU : ℚ))

/-- `_emu2pt(emu) = emu / _PT_TO_EMU`. -/
def emu2pt (emu : ℤ) : ℚ := (emu : ℚ) / (PT_TO_EMU : ℚ)

-- ── Shape-id counter (converter.py lines 43–48, 1029–1030) ──────────────────

/-- `_next_shape_id`: increment the counter and return its new value.
The pair is (new counter state, returned id). -/
def next_shape_id (counter : ℕ) : ℕ × ℕ := (counter + 1, counter + 1)

/-- `convert_pdf_to_docx` resets `_SHAPE_ID_COUNTER = 0` at the start of
every conversion run. -/
def reset_shape_counter : ℕ := 0

/-- The ids returned by `n` successive `_next_shape_id` calls starting from
counter state `c`. -/
def alloc_ids : ℕ → ℕ → List ℕ
  | _, 0 => []
  | c, n + 1 =>
    let r := next_shape_id c
    r.2 :: alloc_ids r.1 n

/-- The ids allocated in one conversion run of `n` allocations: the counter
is reset to `reset_shape_counter` first. -/
def run_alloc_ids (n : ℕ) : List ℕ := alloc_ids reset_shape_counter n

-- ── Rectangles (PyMuPDF `fitz.Rect` semantics) ──────────────────────────────

/-- A `fitz.Rect`: coordinates `x0 y0 x1 y1` in page points. -/
structure Rect where
  x0 : ℚ
  y0 : ℚ
  x1 : ℚ
  y1 : ℚ
deriving DecidableEq, Repr

/-- A `fitz.Point`. -/
structure Point where
  x : ℚ
  y : ℚ
deriving DecidableEq, Repr

def Rect.width (r : Rect) : ℚ := r.x1 - r.x0

def Rect.height (r : Rect) : ℚ := r.y1 - r.y0

/-- `fitz.Rect.is_empty`: true when `x0 >= x1` or `y0 >= y1`. -/
def Rect.isEmptyR (r : Rect) : Bool := decide (r.x1 ≤ r.x0) || decide (r.y1 ≤ r.y0)

/-- `r & s` — rectangle intersection. -/
def Rect.inter (r s : Rect) : Rect :=
  ⟨max r.x0 s.x0, max r.y0 s.y0, min r.x1 s.x1, min r.y1 s.y1⟩

/-- `r | s` — bounding union. -/
def Rect.union (r s : Rect) : Rect :=
  ⟨min r.x0 s.x0, min r.y0 s.y0, max r.x1 s.x1, max r.y1 s.y1⟩

/-- `fitz.Rect.intersects`: both rectangles non-empty with non-empty
intersection. -/
def Rect.intersects (r s : Rect) : Bool :=
  !r.isEmptyR && !s.isEmptyR && !(r.inter s).isEmptyR

/-- `fitz.Rect.contains` for a rectangle argument: an empty rectangle is
contained in anything, otherwise all corners must lie inside. -/
def Rect.containsR (outer r : Rect) : Bool :=
  r.isEmptyR ||
    (decide (outer.x0 ≤ r.x0) && decide (r.x1 ≤ outer.x1) &&
     decide (outer.y0 ≤ r.y0) && decide (r.y1 ≤ outer.y1))

/-- Expansion of a rectangle by a margin on all four sides, as done inside
`_merge_rects`. -/
def Rect.expandR (m : ℚ) (r : Rect) : Rect :=
  ⟨r.x0 - m, r.y0 - m, r.x1 + m, r.y1 + m⟩

-- ── `_merge_rects` (converter.py lines 953–991) ─────────────────────────────

/-- One scan of the inner `for j` loop of `_merge_rects`: walk the remaining
rectangles in order; each one whose margin-expansion intersects `current` is
absorbed (union of the expansions) and removed.  Returns the grown rectangle,
the rectangles not absorbed (in order), and whether anything was absorbed. -/
def absorb_pass (m : ℚ) : Rect → List Rect → Rect × List Rect × Bool
  | c, [] => (c, [], false)
  | c, r :: t =>
    if c.intersects (Rect.expandR m r) then
      let res := absorb_pass m (c.union (Rect.expandR m r)) t
      (res.1, res.2.1, true)
    else
      let res := absorb_pass m c t
      (res.1, r :: res.2.1, res.2.2)

/-- The `while changed` loop of `_merge_rects`: rescan until a pass absorbs
nothing.  `fuel` bounds the number of passes; each absorbing pass removes at
least one rectangle, so `length + 1` passes always reach the fixed point. -/
def absorb_loop (m : ℚ) : ℕ → Rect → List Rect → Rect × List Rect
  | 0, c, l => (c, l)
  | fuel + 1, c, l =>
    let res := absorb_pass m c l
    if res.2.2 then absorb_loop m fuel res.1 res.2.1 else (res.1, res.2.1)

/-- The outer `for i` loop of `_merge_rects`: take the first unused
rectangle, expand it by the margin, absorb everything reachable, emit it,
and continue with what is left.  `fuel` only needs to be at least the list
length. -/
def merge_aux (m : ℚ) : ℕ → List Rect → List Rect
  | 0, _ => []
  | _ + 1, [] => []
  | fuel + 1, r :: rest =>
    let res := absorb_loop m (rest.length + 1) (Rect.expandR m r) rest
    res.1 :: merge_aux m fuel res.2

/-- `_merge_rects(rects, margin)`: merge overlapping or nearby rectangles.
The Python default margin is 5; callers pass the margin first here. -/
def merge_rects (m : ℚ) (rects : List Rect) : List Rect :=
  merge_aux m rects.length rects

/-- Executable check that no rectangle in the list intersects a later one. -/
def pairwise_no_inter : List Rect → Bool
  | [] => true
  | r :: rest => rest.all (fun s => !(r.intersects s)) && pairwise_no_inter rest

-- ── Text width estimation (converter.py lines 89–115) ───────────────────────

/-- `_CHAR_WIDTHS` / `_DEFAULT_CHAR_WIDTH`, scaled by 100 so the table is a
natural number per character; the rational factor is recovered by `/ 100`. -/
def char_width_num (c : Char) : ℕ :=
  match c with
  | 'i' => 28 | 'l' => 28 | 'I' => 28 | '1' => 50 | '.' => 28 | ',' => 28
  | ':' => 28 | ';' => 28 | '!' => 33 | '\'' => 19 | '"' => 41 | '|' => 28
  | 'j' => 28 | 'f' => 33 | 't' => 33 | 'r' => 39 | ' ' => 28
  | 'm' => 89 | 'w' => 78 | 'M' => 89 | 'W' => 100 | '@' => 92 | '%' => 89
  | 'A' => 67 | 'B' => 67 | 'C' => 72 | 'D' => 72 | 'E' => 67 | 'F' => 61
  | 'G' => 78 | 'H' => 72 | 'J' => 50 | 'K' => 67 | 'L' => 56 | 'N' => 72
  | 'O' => 78 | 'P' => 67 | 'Q' => 78 | 'R' => 72 | 'S' => 67 | 'T' => 61
  | 'U' => 72 | 'V' => 67 | 'X' => 67 | 'Y' => 67 | 'Z' => 61
  | _ => 56

/-- `_CHAR_WIDTHS.get(c, _DEFAULT_CHAR_WIDTH)` as a rational factor. -/
def char_width (c : Char) : ℚ := (char_width_num c : ℚ) / 100

/-- Python `needle in hay` substring test on character lists. -/
def contains_sub (needle : List Char) : List Char → Bool
  | [] => needle.isEmpty
  | c :: t => needle.isPrefixOf (c :: t) || contains_sub needle t

/-- The monospace keyword list of `_estimate_text_width`. -/
def mono_keywords : List (List Char) :=
  ["mono".toList, "courier".toList, "consolas".toList,
   "menlo".toList, "fixed".toList, "code".toList]

/-- `any(kw in font_name.lower() for kw in mono_keywords)`. -/
def is_mono_font (font_name : List Char) : Bool :=
  mono_keywords.any (fun kw => contains_sub kw (font_name.map Char.toLower))

/-- `_estimate_text_width(text, font_size, font_name)`. -/
def estimate_text_width (text : List Char) (font_size : ℚ) (font_name : List Char) : ℚ :=
  if text = [] then 0
  else if is_mono_font font_name then (text.length : ℚ) * font_size * (6/10)
  else ((text.map char_width).sum) * font_size

-- ── Span flag decoding and font-name cleanup (lines 734–742) ────────────────

/-- `is_bold = bool(flags & (1 << 4))`. -/
def span_is_bold (flags : ℕ) : Bool := flags &&& (1 <<< 4) != 0

/-- `is_italic = bool(flags & (1 << 1))`. -/
def span_is_italic (flags : ℕ) : Bool := flags &&& (1 <<< 1) != 0

/-- `is_superscript = bool(flags & 1)`. -/
def span_is_superscript (flags : ℕ) : Bool := flags &&& 1 != 0

/-- `clean_font.split("+", 1)[1]`: everything after the first `'+'`. -/
def after_plus : List Char → List Char
  | [] => []
  | c :: t => if c = '+' then t else after_plus t

/-- Font-name cleanup: `if "+" in clean_font: clean_font.split("+", 1)[1]`,
otherwise the name is left unchanged. -/
def clean_font_name (name : List Char) : List Char :=
  if '+' ∈ name then after_plus name else name

-- ── Text span sizing (converter.py lines 744–765) ───────────────────────────

/-- The literal `1.1` padding factor applied to the final text box width. -/
def text_padding_factor : ℚ := 11/10

/-- `final_width = max(pdf_width, estimated_width) * 1.1`. -/
def span_final_width (text : List Char) (size : ℚ) (font : List Char)
    (pdf_width : ℚ) : ℚ :=
  max pdf_width (estimate_text_width text size font) * text_padding_factor

/-- `final_height = max(bbox[3] - bbox[1], size * 1.4)`. -/
def span_final_height (size : ℚ) (bbox_height : ℚ) : ℚ :=
  max bbox_height (size * (14/10))

/-- `size_half_pt = max(int(round(size * 2)), 2)`. -/
def span_size_half_pt (size : ℚ) : ℤ := max (py_round (size * 2)) 2

-- ── Rendering zoom factors ──────────────────────────────────────────────────

/-- Figure-region rendering (line 611): `zoom = min(dpi, 250) / 72.0`. -/
def figure_zoom (dpi : ℕ) : ℚ := ((min dpi 250 : ℕ) : ℚ) / 72

/-- Complex-region rasterization (line 692): `zoom = min(dpi, 200) / 72.0`. -/
def complex_zoom (dpi : ℕ) : ℚ := ((min dpi 200 : ℕ) : ℚ) / 72

/-- Whole-page rendering in exact mode (line 829): `zoom = dpi / 72.0`. -/
def exact_zoom (dpi : ℕ) : ℚ := (dpi : ℚ) / 72

-- ── Output elements ─────────────────────────────────────────────────────────

/-- One floating object appended to the page anchor paragraph.  Geometry is
in EMU.  `floatingImage` is an embedded image placed by
`_add_floating_image`; `rasterImage` is the same but for a region rendered
with `get_pixmap` at the recorded zoom; `rectShape` / `lineShape` come from
`_add_rect_shape` / `_add_line_shape`; `textbox` comes from `_add_textbox`
(which receives no superscript flag). -/
inductive Element where
  | floatingImage (x y w h : ℤ)
  | rasterImage (zoom : ℚ) (x y w h : ℤ)
  | rectShape (x y w h : ℤ) (stroke : ℕ) (fill : Option ℕ) (lw : ℤ)
  | lineShape (x y w h : ℤ) (flipH flipV : Bool) (color : ℕ) (lw : ℤ)
  | textbox (text : List Char) (x y w h : ℤ) (font : List Char) (szHalf : ℤ)
      (bold italic : Bool) (color : ℕ)
deriving DecidableEq, Repr

/-- `_add_rect_shape` (lines 339–352): returns nothing when
`w_emu <= 0 or h_emu <= 0`. -/
def add_rect_shape (x y w h : ℤ) (stroke : ℕ) (fill : Option ℕ) (lw : ℤ) :
    Option Element :=
  if w ≤ 0 ∨ h ≤ 0 then none else some (Element.rectShape x y w h stroke fill lw)

/-- `_add_line_shape` (lines 402–419): bounding box plus flip flags;
`abs(...) or width_emu` replaces a zero extent by the stroke width. -/
def add_line_shape (x0 y0 x1 y1 : ℤ) (color : ℕ) (lw : ℤ) : Element :=
  let bw := if |x1 - x0| = 0 then lw else |x1 - x0|
  let bh := if |y1 - y0| = 0 then lw else |y1 - y0|
  Element.lineShape (min x0 x1) (min y0 y1) bw bh
    (decide (x1 < x0)) (decide (y1 < y0)) color lw

/-- The EMU width field of an element (the `cx` extent of its anchor). -/
def elem_emu_width : Element → ℤ
  | .floatingImage _ _ w _ => w
  | .rasterImage _ _ _ w _ => w
  | .rectShape _ _ w _ _ _ _ => w
  | .lineShape _ _ w _ _ _ _ _ => w
  | .textbox _ _ _ w _ _ _ _ _ _ => w

def is_textbox : Element → Bool
  | .textbox .. => true
  | _ => false

/-- The rendering zoom of an element, when it is a rendered region. -/
def raster_zoom : Element → Option ℚ
  | .rasterImage z .. => some z
  | _ => none

-- ── Page model (what the PyMuPDF provider yields per page) ──────────────────

/-- One text span of `page.get_text("dict")`. -/
structure Span where
  text : List Char
  bbox : Rect
  font : List Char
  size : ℚ
  flags : ℕ
  color : ℕ
deriving DecidableEq, Repr

/-- One line of a text block. -/
structure Line where
  bbox : Rect
  spans : List Span
deriving DecidableEq, Repr

/-- One block of `page.get_text("dict")`; `type = 0` marks a text block. -/
structure Block where
  type : ℕ
  bbox : Rect
  lines : List Line
deriving DecidableEq, Repr

/-- One path operator of a drawing group: `"re"`, `"l"`, or a curve
operator (`"c"`, `"qu"`, `"curve"`). -/
inductive DrawItem where
  | re (r : Rect)
  | seg (p q : Point)
  | curve
deriving DecidableEq, Repr

/-- One drawing group of `page.get_drawings()`.  `color` and `fill` are the
opaque colour tokens; `widthAttr` is the raw `"width"` attribute
(`None` → absent). -/
structure Drawing where
  items : List DrawItem
  rect : Option Rect
  color : ℕ
  fill : Option ℕ
  widthAttr : Option ℚ
deriving DecidableEq, Repr

/-- One entry of `page.get_images(full=True)` joined with
`page.get_image_rects(xref)` and `pdf_doc.extract_image(xref)`:
`hasData` records whether `extract_image` produced usable bytes. -/
structure ImageEntry where
  xref : ℕ
  hasData : Bool
  rects : List Rect
deriving DecidableEq, Repr

/-- One entry of `page.get_xobjects()` with its `get_image_rects` result. -/
structure XObj where
  xref : ℕ
  rects : List Rect
deriving DecidableEq, Repr

/-- The page model consumed by `_process_page_editable`. -/
structure Page where
  rect : Rect
  images : List ImageEntry
  drawings : List Drawing
  blocks : List Block
  xobjects : List XObj
deriving DecidableEq, Repr

-- ── `drawing.get("width", 1) or 1` ──────────────────────────────────────────

def drawing_stroke_width (w : Option ℚ) : ℚ :=
  match w with
  | none => 1
  | some v => if v = 0 then 1 else v

-- ── Step 1: direct image extraction (converter.py lines 558–601) ────────────

/-- The `for img_info in image_list` loop: deduplicate by xref, skip entries
without placement rectangles or extractable bytes, filter out rectangles
with non-positive width or height, and emit one floating image per kept
rectangle.  Returns the emitted elements and the kept rectangles (the
`image_rects` accumulator). -/
def direct_images_go : List ImageEntry → List ℕ → List Element × List Rect
  | [], _ => ([], [])
  | e :: rest, seen =>
    if e.xref ∈ seen then direct_images_go rest seen
    else if e.rects = [] ∨ ¬e.hasData then direct_images_go rest (e.xref :: seen)
    else
      let kept := e.rects.filter fun r =>
        !(decide (r.width ≤ 0) || decide (r.height ≤ 0))
      let elems := kept.map fun r =>
        Element.floatingImage (pt2emu r.x0) (pt2emu r.y0)
          (pt2emu r.width) (pt2emu r.height)
      let res := direct_images_go rest (e.xref :: seen)
      (elems ++ res.1, kept ++ res.2)

/-- Step 1 of `_process_page_editable`. -/
def direct_image_elems (page : Page) : List Element × List Rect :=
  direct_images_go page.images []

-- ── `_detect_figure_regions` (converter.py lines 849–948) ───────────────────

/-- The body of the `for rect in draw_rects` loop, folded over an
accumulator of detected figure regions. -/
def figure_scan_step (already : List Rect) (text_rects : List Rect)
    (acc : List Rect) (rect : Rect) : List Rect :=
  if rect.width < 100 ∨ rect.height < 100 then acc
  else if already.any (fun ex =>
      rect.intersects ex &&
      decide (rect.width * rect.height * (1/2) <
        (rect.inter ex).width * (rect.inter ex).height)) then acc
  else if text_rects.countP (fun tr => rect.containsR tr) ≤ 3 then
    let inner : Rect := ⟨rect.x0 + 2, rect.y0 + 2, rect.x1 - 2, rect.y1 - 2⟩
    if 50 < inner.width ∧ 50 < inner.height then acc ++ [inner] else acc
  else acc

/-- The XObject scan: a rectangle is kept when it is large and neither
contains nor is contained in any already-known region (the check runs
against `already_extracted + figure_regions`, the latter still growing). -/
def xobj_scan_step (already : List Rect) (acc : List Rect) (xr : Rect) : List Rect :=
  if 50 < xr.width ∧ 50 < xr.height then
    if (already ++ acc).any (fun ex => ex.containsR xr || xr.containsR ex) then acc
    else acc ++ [xr]
  else acc

/-- `_detect_figure_regions(page, already_extracted)`. -/
def detect_figure_regions (page : Page) (already : List Rect) : List Rect :=
  let draw_rects := page.drawings.flatMap fun d =>
    d.items.filterMap fun it =>
      match it with
      | .re r => if 50 < r.width ∧ 50 < r.height then some r else none
      | _ => none
  let text_rects := page.blocks.filterMap fun b =>
    if b.type = 0 then some b.bbox else none
  let figs1 := draw_rects.foldl (figure_scan_step already text_rects) []
  let figs2 := page.xobjects.foldl
    (fun acc xo => xo.rects.foldl (xobj_scan_step already) acc) figs1
  merge_rects 10 figs2

/-- Step 2 of `_process_page_editable`: render each detected figure region
at `zoom = min(dpi, 250) / 72`. -/
def figure_elems (dpi : ℕ) (figs : List Rect) : List Element :=
  figs.map fun r =>
    Element.rasterImage (figure_zoom dpi) (pt2emu r.x0) (pt2emu r.y0)
      (pt2emu r.width) (pt2emu r.height)

-- ── Step 2b: drawings (converter.py lines 633–709) ──────────────────────────

/-- One drawing group: groups containing curve operators and carrying a
bounding rectangle are deferred to rasterization; otherwise every `"re"`
item becomes a rectangle shape (with the zero-area guard of
`_add_rect_shape`) and every `"l"` item a line shape.  The stroke width is
floor-clamped: `max(_pt2emu(stroke_width), 6350)`. -/
def drawing_has_curves (d : Drawing) : Bool :=
  d.items.any fun it =>
    match it with
    | .curve => true
    | _ => false

def drawing_elems_one (d : Drawing) : List Element × List Rect :=
  if drawing_has_curves d = true ∧ d.rect ≠ none then
    ([], d.rect.toList)
  else
    (d.items.filterMap fun it =>
      match it with
      | .re r =>
        add_rect_shape (pt2emu r.x0) (pt2emu r.y0)
          (pt2emu r.width) (pt2emu r.height) d.color d.fill
          (max (pt2emu (drawing_stroke_width d.widthAttr)) 6350)
      | .seg p q =>
        some (add_line_shape (pt2emu p.x) (pt2emu p.y) (pt2emu q.x) (pt2emu q.y)
          d.color (max (pt2emu (drawing_stroke_width d.widthAttr)) 6350))
      | .curve => none,
     [])

/-- The full `for drawing in drawings` loop: emitted shape elements plus the
collected complex regions. -/
def drawings_elems : List Drawing → List Element × List Rect
  | [] => ([], [])
  | d :: rest =>
    let one := drawing_elems_one d
    let res := drawings_elems rest
    (one.1 ++ res.1, one.2 ++ res.2)

/-- Rasterize the merged complex regions (lines 684–709): regions thinner
than 5 points in either direction are skipped; the rest are rendered at
`zoom = min(dpi, 200) / 72`. -/
def complex_raster_elems (dpi : ℕ) (regions : List Rect) : List Element :=
  (merge_rects 5 regions).filterMap fun r =>
    if r.width < 5 ∨ r.height < 5 then none
    else some (Element.rasterImage (complex_zoom dpi) (pt2emu r.x0) (pt2emu r.y0)
      (pt2emu r.width) (pt2emu r.height))

-- ── Step 3: text (converter.py lines 470–511, 711–782) ──────────────────────

/-- A line produced by `_group_spans_by_line`. -/
structure LineGroup where
  bbox : Rect
  spans : List Span
deriving DecidableEq, Repr

/-- One line of `_group_spans_by_line`: drop spans with empty text, drop
the line when no span is left. -/
def keep_line (ln : Line) : Option LineGroup :=
  if (ln.spans.filter fun s => !s.text.isEmpty).isEmpty then none
  else some ⟨ln.bbox, ln.spans.filter fun s => !s.text.isEmpty⟩

/-- `_group_spans_by_line(blocks)`: keep text blocks only, drop spans with
empty text, drop lines left without spans. -/
def group_spans_by_line (blocks : List Block) : List LineGroup :=
  blocks.flatMap fun b =>
    if b.type = 0 then b.lines.filterMap keep_line else []

/-- Lines 723–782: one text box per span whose text is not pure whitespace,
with the position, padded width/height, cleaned font, half-point size and
decoded bold/italic flags computed exactly as in the source
(`_add_textbox` receives no superscript flag). -/
def make_textbox (s : Span) : Element :=
  let cf := clean_font_name s.font
  Element.textbox s.text
    (pt2emu s.bbox.x0) (pt2emu s.bbox.y0)
    (pt2emu (span_final_width s.text s.size cf (s.bbox.x1 - s.bbox.x0)))
    (pt2emu (span_final_height s.size (s.bbox.y1 - s.bbox.y0)))
    cf (span_size_half_pt s.size)
    (span_is_bold s.flags) (span_is_italic s.flags) s.color

/-- The `if not text.strip(): continue` guard followed by the emission. -/
def emit_span (s : Span) : Option Element :=
  if s.text.all Char.isWhitespace then none else some (make_textbox s)

/-- Step 3 of `_process_page_editable`. -/
def text_elems (blocks : List Block) : List Element :=
  (group_spans_by_line blocks).flatMap fun lg => lg.spans.filterMap emit_span

-- ── `_process_page_editable` / `_process_page_exact` ────────────────────────

/-- `_process_page_editable` (lines 516–782), as the ordered list of
floating elements appended to the page anchor paragraph (section geometry
setup is configuration, not an element, and is omitted). -/
def process_page_editable (dpi : ℕ) (page : Page) : List Element :=
  let di := direct_image_elems page
  let figs := detect_figure_regions page di.2
  let dr := drawings_elems page.drawings
  di.1 ++ figure_elems dpi figs ++ dr.1 ++ complex_raster_elems dpi dr.2 ++
    text_elems page.blocks

/-- `_process_page_exact` (lines 787–844): the whole page rendered once at
`zoom = dpi / 72` and placed at the page origin. -/
def process_page_exact (dpi : ℕ) (page : Page) : List Element :=
  [Element.rasterImage (exact_zoom dpi) 0 0
    (pt2emu page.rect.width) (pt2emu page.rect.height)]

-- ── `convert_pdf_to_docx` page loop and the CLI (cli.py) ────────────────────

/-- The page loop of `convert_pdf_to_docx` (lines 1052–1060): every
requested page is processed in exact mode when `mode == "exact"` and in
editable mode otherwise.  No validation of `mode` is performed. -/
def convert_run (mode : String) (dpi : ℕ) (pages : List Page) :
    List (List Element) :=
  pages.map fun p =>
    if mode = "exact" then process_page_exact dpi p else process_page_editable dpi p

/-- The `--mode` choices accepted by the CLI (cli.py lines 26–36). -/
def cli_mode_choices : List String := ["image", "text", "hybrid"]

/-- The CLI default mode. -/
def cli_default_mode : String := "image"

-- ── Derived counts ──────────────────────────────────────────────────────────

def textbox_count (elems : List Element) : ℕ := elems.countP is_textbox

/-- Characters of text carried by an element. -/
def element_text_chars : Element → ℕ
  | .textbox t .. => t.length
  | _ => 0

/-- Total extracted text characters across a page's emitted elements. -/
def extracted_text_chars (elems : List Element) : ℕ :=
  (elems.map element_text_chars).sum

/-- Total characters reported by the page model: all span texts of all text
blocks. -/
def source_char_count (page : Page) : ℕ :=
  ((page.blocks.flatMap fun b => if b.type = 0 then b.lines.flatMap Line.spans else []).map
    fun s => s.text.length).sum

/-- Spans of a page's text blocks whose text is not pure whitespace — these
are exactly the spans the editable path turns into text boxes. -/
def non_blank_span_count (blocks : List Block) : ℕ :=
  (blocks.flatMap fun b => if b.type = 0 then b.lines.flatMap Line.spans else []).countP
    fun s => !s.text.all Char.isWhitespace

-- ── Numeric lemmas about truncation ─────────────────────────────────────────

lemma py_trunc_intCast (e : ℤ) : py_trunc (e : ℚ) = e := by
  unfold py_trunc
  split
  · exact Int.ceil_intCast e
  · exact Int.floor_intCast e

lemma py_trunc_err (q : ℚ) : |q - (py_trunc q : ℚ)| < 1 := by
  unfold py_trunc
  split
  · rw [abs_sub_lt_iff]
    constructor <;> linarith [Int.le_ceil q, Int.ceil_lt_add_one q]
  · rw [abs_sub_lt_iff]
    constructor <;> linarith [Int.floor_le q, Int.lt_floor_add_one q]

lemma py_trunc_mono {a b : ℚ} (h : a ≤ b) : py_trunc a ≤ py_trunc b := by
  unfold py_trunc
  split <;> split
  · exact Int.ceil_le_ceil h
  · calc ⌈a⌉ ≤ 0 := Int.ceil_le.mpr (by push_cast; linarith)
      _ ≤ ⌊b⌋ := Int.floor_nonneg.mpr (by linarith)
  · linarith
  · exact Int.floor_le_floor h

lemma pt2emu_mono {a b : ℚ} (h : a ≤ b) : pt2emu a ≤ pt2emu b := by
  unfold pt2emu
  exact py_trunc_mono (by
    have : (0:ℚ) ≤ (PT_TO_EMU : ℚ) := by norm_num [PT_TO_EMU]
    exact mul_le_mul_of_nonneg_right h this)

-- ── C3: unit conversion round-trip ──────────────────────────────────────────

/-- A page rectangle converted to EMU, coordinate by coordinate. -/
def rect_pt2emu (r : Rect) : ℤ × ℤ × ℤ × ℤ :=
  (pt2emu r.x0, pt2emu r.y0, pt2emu r.x1, pt2emu r.y1)

/-- An EMU rectangle converted back to points. -/
def rect_emu2pt (t : ℤ × ℤ × ℤ × ℤ) : Rect :=
  ⟨emu2pt t.1, emu2pt t.2.1, emu2pt t.2.2.1, emu2pt t.2.2.2⟩

lemma pt2emu_emu2pt (e : ℤ) : pt2emu (emu2pt e) = e := by
  unfold pt2emu emu2pt
  rw [div_mul_cancel₀ _ (by norm_num [PT_TO_EMU] : (PT_TO_EMU : ℚ) ≠ 0)]
  exact py_trunc_intCast e

lemma emu2pt_pt2emu (q : ℚ) : |q - emu2pt (pt2emu q)| < 1 / 12700 := by
  unfold emu2pt pt2emu PT_TO_EMU
  have h := py_trunc_err (q * ((12700:ℕ) : ℚ))
  rw [abs_sub_lt_iff] at h ⊢
  push_cast at h ⊢
  constructor <;> linarith

/-- C3: converting an EMU rectangle to points and back is exact; converting
a point rectangle to EMU and back changes every coordinate by less than one
EMU (1/12700 pt); and the conversion is a pure function of the rectangle,
so repeated conversion of the same input is bit-exact. -/
theorem C3_unit_round_trip :
    (∀ t : ℤ × ℤ × ℤ × ℤ, rect_pt2emu (rect_emu2pt t) = t) ∧
    (∀ r : Rect,
      |r.x0 - (rect_emu2pt (rect_pt2emu r)).x0| < 1/12700 ∧
      |r.y0 - (rect_emu2pt (rect_pt2emu r)).y0| < 1/12700 ∧
      |r.x1 - (rect_emu2pt (rect_pt2emu r)).x1| < 1/12700 ∧
      |r.y1 - (rect_emu2pt (rect_pt2emu r)).y1| < 1/12700) ∧
    (∀ r s : Rect, r = s → rect_pt2emu r = rect_pt2emu s) := by
  refine ⟨?_, ?_, ?_⟩
  · intro t
    simp [rect_pt2emu, rect_emu2pt, pt2emu_emu2pt]
  · intro r
    exact ⟨emu2pt_pt2emu r.x0, emu2pt_pt2emu r.y0, emu2pt_pt2emu r.x1,
      emu2pt_pt2emu r.y1⟩
  · intro r s h
    rw [h]

/-- Witness for C3 at a concrete rectangle. -/
theorem C3_witness : rect_pt2emu ⟨1, 2, 3, 4⟩ = rect_pt2emu ⟨1, 2, 3, 4⟩ :=
  C3_unit_round_trip.2.2 ⟨1, 2, 3, 4⟩ ⟨1, 2, 3, 4⟩ rfl

-- ── C4: text boxes never under-allocate width ───────────────────────────────

lemma char_width_nonneg (c : Char) : 0 ≤ char_width c := by
  unfold char_width
  positivity

lemma estimate_text_width_nonneg (t : List Char) (s : ℚ) (f : List Char)
    (hs : 0 ≤ s) : 0 ≤ estimate_text_width t s f := by
  unfold estimate_text_width
  split
  · exact le_refl 0
  · split
    · have h1 : (0:ℚ) ≤ (t.length : ℚ) := by positivity
      have h2 : (0:ℚ) ≤ 6/10 := by norm_num
      exact mul_nonneg (mul_nonneg h1 hs) h2
    · refine mul_nonneg (List.sum_nonneg ?_) hs
      intro x hx
      obtain ⟨c, _, rfl⟩ := List.mem_map.mp hx
      exact char_width_nonneg c

/-- C4: for every text span the computed box width (before and after EMU
conversion) is at least the PDF-reported width, and the padding factor the
code multiplies by is at least 1.05. -/
theorem C4_box_width_never_under_allocates :
    (∀ (text : List Char) (size : ℚ) (font : List Char) (pdf_width : ℚ),
      0 ≤ size →
      pdf_width ≤ span_final_width text size font pdf_width ∧
      pt2emu pdf_width ≤ pt2emu (span_final_width text size font pdf_width)) ∧
    (105/100 : ℚ) ≤ text_padding_factor := by
  constructor
  · intro text size font pdf_width hs
    have hest : 0 ≤ estimate_text_width text size font :=
      estimate_text_width_nonneg text size font hs
    have hmax0 : 0 ≤ max pdf_width (estimate_text_width text size font) :=
      le_trans hest (le_max_right _ _)
    have hle : pdf_width ≤ span_final_width text size font pdf_width := by
      unfold span_final_width text_padding_factor
      calc pdf_width ≤ max pdf_width (estimate_text_width text size font) :=
            le_max_left _ _
        _ ≤ max pdf_width (estimate_text_width text size font) * (11/10) := by
            nlinarith
    exact ⟨hle, pt2emu_mono hle⟩
  · norm_num [text_padding_factor]

/-- Witness for C4 at the span used in the end-to-end example. -/
theorem C4_witness :
    (20 : ℚ) ≤ span_final_width "Hi".toList 12 [] 20 ∧
    pt2emu 20 ≤ pt2emu (span_final_width "Hi".toList 12 [] 20) :=
  C4_box_width_never_under_allocates.1 "Hi".toList 12 [] 20 (by norm_num)

-- ── C5: font style bit decoding ─────────────────────────────────────────────

lemma and_shift_ne_zero (f k : ℕ) : (f &&& (1 <<< k) != 0) = f.testBit k := by
  have h1 : (1 : ℕ) <<< k = 2 ^ k := by
    simp [Nat.shiftLeft_eq]
  rw [h1, Nat.and_two_pow]
  cases h : f.testBit k <;> simp [h]

/-- C5: the style flags are decoded bit-by-bit — superscript is bit 0,
italic is bit 1, bold is bit 4, each depending only on its own bit — and
the two concrete bitmasks of the specification decode as stated. -/
theorem C5_flag_decoding :
    (∀ flags : ℕ,
      span_is_superscript flags = flags.testBit 0 ∧
      span_is_italic flags = flags.testBit 1 ∧
      span_is_bold flags = flags.testBit 4) ∧
    (span_is_superscript 0b10011 = true ∧ span_is_italic 0b10011 = true ∧
      span_is_bold 0b10011 = true) ∧
    (span_is_superscript 0 = false ∧ span_is_italic 0 = false ∧
      span_is_bold 0 = false) := by
  refine ⟨fun flags => ⟨?_, ?_, ?_⟩, by decide, by decide⟩
  · have := and_shift_ne_zero flags 0
    simpa [span_is_superscript] using this
  · exact and_shift_ne_zero flags 1
  · exact and_shift_ne_zero flags 4

-- ── C6: subset-prefixed font names are cleaned ──────────────────────────────

lemma after_plus_append {p : List Char} (rest : List Char) (hp : '+' ∉ p) :
    after_plus (p ++ '+' :: rest) = rest := by
  induction p with
  | nil => simp [after_plus]
  | cons c t ih =>
    have hc : ¬c = '+' := fun h => hp (h ▸ List.mem_cons_self c t)
    have ht : '+' ∉ t := fun h => hp (List.mem_cons_of_mem c h)
    simp only [List.cons_append, after_plus, if_neg hc]
    exact ih ht

/-- C6: a font name consisting of six uppercase letters, a `'+'` and a
remainder is cleaned to the remainder; a name without `'+'` is unchanged;
and the concrete example of the specification cleans as stated. -/
theorem C6_font_name_cleanup :
    (∀ (p rest : List Char), p.length = 6 → (∀ c ∈ p, c.isUpper) →
      clean_font_name (p ++ '+' :: rest) = rest) ∧
    (∀ name : List Char, '+' ∉ name → clean_font_name name = name) ∧
    clean_font_name "ABCDEF+Helvetica-Bold".toList = "Helvetica-Bold".toList := by
  refine ⟨?_, ?_, by decide⟩
  · intro p rest _ hup
    have hp : '+' ∉ p := by
      intro hmem
      have := hup '+' hmem
      simp [Char.isUpper] at this
    have hmem : '+' ∈ p ++ '+' :: rest :=
      List.mem_append_right p (List.mem_cons_self _ _)
    rw [clean_font_name, if_pos hmem]
    exact after_plus_append rest hp
  · intro name h
    rw [clean_font_name, if_neg h]

/-- Witness for C6 at a concrete subset-prefixed name. -/
theorem C6_witness :
    clean_font_name (['A','B','C','D','E','F'] ++ '+' :: "X".toList) = "X".toList :=
  C6_font_name_cleanup.1 ['A','B','C','D','E','F'] "X".toList (by decide) (by decide)

-- ── C9: shape-id allocation is strictly increasing within a run ─────────────

lemma alloc_ids_spec : ∀ (n c : ℕ),
    (∀ i ∈ alloc_ids c n, c < i) ∧ (alloc_ids c n).Pairwise (· < ·) := by
  intro n
  induction n with
  | zero => intro c; constructor <;> simp [alloc_ids]
  | succ m ih =>
    intro c
    constructor
    · intro i hi
      simp only [alloc_ids, next_shape_id] at hi
      rcases List.mem_cons.mp hi with h | h
      · omega
      · have := (ih (c + 1)).1 i h
        omega
    · simp only [alloc_ids, next_shape_id]
      refine List.Pairwise.cons ?_ (ih (c + 1)).2
      intro i hi
      exact (ih (c + 1)).1 i hi

/-- C9: in a single conversion run (counter reset to 0, then `n`
allocations) the returned shape ids are strictly increasing — each
allocation returns a value strictly greater than every previously returned
one — hence all ids in one output document are distinct. -/
theorem C9_shape_ids_strictly_increasing :
    ∀ n : ℕ, (run_alloc_ids n).Pairwise (· < ·) ∧ (run_alloc_ids n).Nodup := by
  intro n
  have h := (alloc_ids_spec n reset_shape_counter).2
  exact ⟨h, h.imp ne_of_lt⟩

-- ── C10: every non-exact mode selects editable processing ───────────────────

/-- C10: `convert_pdf_to_docx` processes every page in editable mode for
every mode string other than `"exact"`; in particular all three CLI mode
choices — including the CLI default `"image"` — select editable processing,
and no mode value is rejected. -/
theorem C10_mode_dispatch :
    (∀ (mode : String) (dpi : ℕ) (pages : List Page), mode ≠ "exact" →
      convert_run mode dpi pages = pages.map (process_page_editable dpi)) ∧
    (∀ m ∈ cli_mode_choices, m ≠ "exact") ∧
    cli_default_mode ∈ cli_mode_choices ∧ cli_default_mode ≠ "exact" := by
  refine ⟨?_, by decide, by decide, by decide⟩
  intro mode dpi pages h
  unfold convert_run
  simp [h]

/-- Witness for C10: the CLI default mode converts a concrete page list in
editable mode. -/
theorem C10_witness :
    convert_run "image" 300 [] = List.map (process_page_editable 300) [] :=
  C10_mode_dispatch.1 "image" 300 [] (by decide)

-- ── C2: the merge is not idempotent (margins are re-applied) ────────────────

/-- C2 counterexample: merging a single rectangle expands it by the default
margin 5; merging the output again expands it by 5 once more, so the merge
applied to its own output does not return the same set of rectangles. -/
theorem C2_counterexample :
    merge_rects 5 (merge_rects 5 [⟨0, 0, 10, 10⟩]) ≠ merge_rects 5 [⟨0, 0, 10, 10⟩] := by
  norm_num [merge_rects, merge_aux, absorb_loop, absorb_pass, Rect.expandR,
    Rect.intersects, Rect.isEmptyR, Rect.inter, Rect.union, Rect.mk.injEq]

lemma expandR_zero (r : Rect) : Rect.expandR 0 r = r := by
  cases r
  simp [Rect.expandR]

lemma absorb_pass_of_no_inter {c : Rect} {l : List Rect}
    (h : ∀ r ∈ l, c.intersects (Rect.expandR 0 r) = false) :
    absorb_pass 0 c l = (c, l, false) := by
  induction l with
  | nil => rfl
  | cons r t ih =>
    have hr := h r (List.mem_cons_self r t)
    have ht : ∀ x ∈ t, c.intersects (Rect.expandR 0 x) = false :=
      fun x hx => h x (List.mem_cons_of_mem r hx)
    simp [absorb_pass, hr, ih ht]

lemma pairwise_no_inter_cons {r : Rect} {rest : List Rect}
    (h : pairwise_no_inter (r :: rest) = true) :
    (∀ s ∈ rest, r.intersects s = false) ∧ pairwise_no_inter rest = true := by
  simp only [pairwise_no_inter, Bool.and_eq_true, List.all_eq_true] at h
  refine ⟨fun s hs => ?_, h.2⟩
  have := h.1 s hs
  simpa using this

lemma merge_aux_zero_id : ∀ (l : List Rect) (fuel : ℕ),
    pairwise_no_inter l = true → l.length ≤ fuel → merge_aux 0 fuel l = l := by
  intro l
  induction l with
  | nil => intro fuel _ _; cases fuel <;> rfl
  | cons r rest ih =>
    intro fuel hp hf
    cases fuel with
    | zero => simp at hf
    | succ f =>
      obtain ⟨h1, h2⟩ := pairwise_no_inter_cons hp
      have hpass : absorb_pass 0 (Rect.expandR 0 r) rest =
          (Rect.expandR 0 r, rest, false) := by
        refine absorb_pass_of_no_inter ?_
        intro s hs
        rw [expandR_zero, expandR_zero]
        exact h1 s hs
      have hlen : rest.length ≤ f := by
        simpa using Nat.succ_le_succ_iff.mp (by simpa using hf)
      have hpass2 : absorb_pass 0 r rest = (r, rest, false) := by
        rw [expandR_zero] at hpass
        exact hpass
      simp [merge_aux, absorb_loop, expandR_zero, hpass2, ih f h2 hlen]

/-- C2 amended: with the default positive margin the merge re-expands every
rectangle on each run, so it is not idempotent; without the margin it is a
fixed point on already-disjoint output — with margin 0 a pairwise
non-intersecting list is returned unchanged, hence re-merging such an
output yields exactly the same set. -/
theorem C2_merge_fixed_point :
    (∀ l : List Rect, pairwise_no_inter l = true → merge_rects 0 l = l) ∧
    (∀ l : List Rect, pairwise_no_inter (merge_rects 0 l) = true →
      merge_rects 0 (merge_rects 0 l) = merge_rects 0 l) := by
  constructor
  · intro l h
    exact merge_aux_zero_id l l.length h (le_refl _)
  · intro l h
    exact merge_aux_zero_id (merge_rects 0 l) (merge_rects 0 l).length h (le_refl _)

/-- Witness for C2 at a concrete disjoint pair. -/
theorem C2_witness :
    merge_rects 0 [⟨0, 0, 1, 1⟩, ⟨5, 5, 6, 6⟩] = [⟨0, 0, 1, 1⟩, ⟨5, 5, 6, 6⟩] :=
  C2_merge_fixed_point.1 [⟨0, 0, 1, 1⟩, ⟨5, 5, 6, 6⟩]
    (by norm_num [pairwise_no_inter, Rect.intersects, Rect.isEmptyR, Rect.inter])

-- ── Shape analysis of the pipeline components ───────────────────────────────

lemma direct_images_floating : ∀ (l : List ImageEntry) (seen : List ℕ) (e : Element),
    e ∈ (direct_images_go l seen).1 → ∃ x y w h, e = Element.floatingImage x y w h := by
  intro l
  induction l with
  | nil => intro seen e he; simp [direct_images_go] at he
  | cons a rest ih =>
    intro seen e he
    rw [direct_images_go] at he
    split at he
    · exact ih seen e he
    · split at he
      · exact ih (a.xref :: seen) e he
      · simp only at he
        rcases List.mem_append.mp he with h | h
        · obtain ⟨r, _, rfl⟩ := List.mem_map.mp h
          exact ⟨_, _, _, _, rfl⟩
        · exact ih (a.xref :: seen) e h

lemma direct_images_rects_pos : ∀ (l : List ImageEntry) (seen : List ℕ) (r : Rect),
    r ∈ (direct_images_go l seen).2 → 0 < r.width ∧ 0 < r.height := by
  intro l
  induction l with
  | nil => intro seen r hr; simp [direct_images_go] at hr
  | cons a rest ih =>
    intro seen r hr
    rw [direct_images_go] at hr
    split at hr
    · exact ih seen r hr
    · split at hr
      · exact ih (a.xref :: seen) r hr
      · simp only at hr
        rcases List.mem_append.mp hr with h | h
        · have := (List.mem_filter.mp h).2
          simp only [Bool.not_eq_true', Bool.or_eq_false_iff, decide_eq_false_iff_not,
            not_le] at this
          exact this
        · exact ih (a.xref :: seen) r h

lemma figure_elems_raster {dpi : ℕ} {figs : List Rect} {e : Element}
    (he : e ∈ figure_elems dpi figs) :
    ∃ x y w h, e = Element.rasterImage (figure_zoom dpi) x y w h := by
  obtain ⟨r, _, rfl⟩ := List.mem_map.mp he
  exact ⟨_, _, _, _, rfl⟩

lemma add_rect_shape_some {x y w h : ℤ} {st : ℕ} {f : Option ℕ} {lw : ℤ}
    {e : Element} (he : add_rect_shape x y w h st f lw = some e) :
    e = Element.rectShape x y w h st f lw ∧ 0 < w ∧ 0 < h := by
  unfold add_rect_shape at he
  split at he
  · exact absurd he (by simp)
  · next hcond =>
    push_neg at hcond
    cases he
    exact ⟨rfl, hcond.1, hcond.2⟩

lemma drawing_elems_one_shape {d : Drawing} {e : Element}
    (he : e ∈ (drawing_elems_one d).1) :
    (∃ x y w h st f lw, e = Element.rectShape x y w h st f lw ∧ 0 < w ∧ 0 < h) ∨
    (∃ x y w h fH fV c lw, e = Element.lineShape x y w h fH fV c lw) := by
  unfold drawing_elems_one at he
  split at he
  · simp at he
  · next =>
    simp only at he
    obtain ⟨it, _, hit⟩ := List.mem_filterMap.mp he
    match it with
    | .re r =>
      obtain ⟨rfl, hw, hh⟩ := add_rect_shape_some hit
      exact Or.inl ⟨_, _, _, _, _, _, _, rfl, hw, hh⟩
    | .seg p q =>
      simp only [Option.some.injEq] at hit
      subst hit
      exact Or.inr ⟨_, _, _, _, _, _, _, _, rfl⟩
    | .curve => simp at hit

lemma drawings_elems_shape : ∀ (ds : List Drawing) (e : Element),
    e ∈ (drawings_elems ds).1 →
    (∃ x y w h st f lw, e = Element.rectShape x y w h st f lw ∧ 0 < w ∧ 0 < h) ∨
    (∃ x y w h fH fV c lw, e = Element.lineShape x y w h fH fV c lw) := by
  intro ds
  induction ds with
  | nil => intro e he; simp [drawings_elems] at he
  | cons d rest ih =>
    intro e he
    rw [drawings_elems] at he
    simp only at he
    rcases List.mem_append.mp he with h | h
    · exact drawing_elems_one_shape h
    · exact ih e h

lemma complex_raster_elems_raster {dpi : ℕ} {rs : List Rect} {e : Element}
    (he : e ∈ complex_raster_elems dpi rs) :
    ∃ x y w h, e = Element.rasterImage (complex_zoom dpi) x y w h := by
  unfold complex_raster_elems at he
  obtain ⟨r, _, hit⟩ := List.mem_filterMap.mp he
  split at hit
  · exact absurd hit (by simp)
  · simp only [Option.some.injEq] at hit
    subst hit
    exact ⟨_, _, _, _, rfl⟩

lemma text_elems_textbox {blocks : List Block} {e : Element}
    (he : e ∈ text_elems blocks) : ∃ s : Span, e = make_textbox s := by
  unfold text_elems at he
  obtain ⟨lg, _, hmem⟩ := List.mem_flatMap.mp he
  obtain ⟨s, _, hit⟩ := List.mem_filterMap.mp hmem
  unfold emit_span at hit
  split at hit
  · exact absurd hit (by simp)
  · simp only [Option.some.injEq] at hit
    exact ⟨s, hit.symm⟩

-- ── C7: degenerate placements filtered, emitted rect shapes positive ────────

/-- C7 counterexample: an image placement with positive but sub-EMU point
width (1/25400 pt) passes the width/height filter, yet its EMU width
truncates to 0 — the run emits a floating image whose output width is not
positive, contradicting the universal no-non-positive-dimensions claim. -/
def c7_page : Page :=
  { rect := ⟨0, 0, 612, 792⟩
  , images := [{ xref := 1, hasData := true, rects := [⟨0, 0, 1/25400, 10⟩] }]
  , drawings := [], blocks := [], xobjects := [] }

theorem C7_counterexample :
    process_page_editable 300 c7_page = [Element.floatingImage 0 0 0 127000] ∧
    ¬(0 < elem_emu_width (Element.floatingImage 0 0 0 127000)) := by
  constructor
  · norm_num [process_page_editable, c7_page, direct_image_elems, direct_images_go,
      detect_figure_regions, figure_elems, drawings_elems, complex_raster_elems,
      text_elems, group_spans_by_line, merge_rects, merge_aux,
      pt2emu, py_trunc, PT_TO_EMU, Rect.width, Rect.height]
  · simp [elem_emu_width]

/-- C7 amended: an image whose placement rectangle has non-positive width
or height in point units is silently filtered (every rectangle the image
step keeps has positive point width and height), and `_add_rect_shape`
never emits a shape with non-positive EMU width or height — in fact no
rectangle shape in any editable page output has non-positive dimensions.
The invariant holds in source point units for images, but not in EMU
units (see the counterexample). -/
theorem C7_degenerate_placements :
    (∀ (images : List ImageEntry) (seen : List ℕ) (r : Rect),
      r ∈ (direct_images_go images seen).2 → 0 < r.width ∧ 0 < r.height) ∧
    (∀ (x y w h : ℤ) (st : ℕ) (f : Option ℕ) (lw : ℤ) (e : Element),
      add_rect_shape x y w h st f lw = some e → 0 < w ∧ 0 < h) ∧
    (∀ (dpi : ℕ) (page : Page) (e : Element) (x y w h : ℤ) (st : ℕ)
      (f : Option ℕ) (lw : ℤ), e ∈ process_page_editable dpi page →
      e = Element.rectShape x y w h st f lw → 0 < w ∧ 0 < h) := by
  refine ⟨direct_images_rects_pos, ?_, ?_⟩
  · intro x y w h st f lw e he
    exact (add_rect_shape_some he).2
  · intro dpi page e x y w h st f lw he hshape
    subst hshape
    unfold process_page_editable at he
    simp only [List.mem_append] at he
    rcases he with (((h | h) | h) | h) | h
    · obtain ⟨_, _, _, _, habs⟩ := direct_images_floating page.images [] _ h
      exact absurd habs (by simp)
    · obtain ⟨_, _, _, _, habs⟩ := figure_elems_raster h
      exact absurd habs (by simp)
    · rcases drawings_elems_shape page.drawings _ h with
        ⟨x', y', w', h', st', f', lw', heq, hw, hh⟩ | ⟨_, _, _, _, _, _, _, _, habs⟩
      · rw [Element.rectShape.injEq] at heq
        obtain ⟨-, -, rfl, rfl, -, -, -⟩ := heq
        exact ⟨hw, hh⟩
      · exact absurd habs (by simp)
    · obtain ⟨_, _, _, _, habs⟩ := complex_raster_elems_raster h
      exact absurd habs (by simp)
    · obtain ⟨s, habs⟩ := text_elems_textbox h
      exact absurd habs (by simp [make_textbox])

/-- Witness for C7: a kept image rectangle has positive point dimensions,
and a concrete `_add_rect_shape` emission has positive EMU dimensions. -/
theorem C7_witness :
    (0 < Rect.width ⟨0, 0, 10, 10⟩ ∧ 0 < Rect.height ⟨0, 0, 10, 10⟩) ∧
    ((0:ℤ) < 5 ∧ (0:ℤ) < 7) :=
  ⟨C7_degenerate_placements.1 [⟨1, true, [⟨0, 0, 10, 10⟩]⟩] [] ⟨0, 0, 10, 10⟩
      (by norm_num [direct_images_go, Rect.width, Rect.height]),
   C7_degenerate_placements.2.1 1 2 5 7 0 none 6350
      (Element.rectShape 1 2 5 7 0 none 6350) (by norm_num [add_rect_shape])⟩

-- ── C8: rendering DPI caps ──────────────────────────────────────────────────

/-- A blank page used for the whole-page rendering counterexample. -/
def c8_page : Page :=
  { rect := ⟨0, 0, 612, 792⟩, images := [], drawings := [], blocks := []
  , xobjects := [] }

/-- C8 counterexample: `_process_page_exact` renders the whole page at
`zoom = dpi / 72` with no cap — at `dpi = 1000` the effective resolution is
1000 DPI, which is not `min(1000, C)` for any cap `C` between 200 and
300. -/
theorem C8_counterexample :
    process_page_exact 1000 c8_page =
      [Element.rasterImage (exact_zoom 1000) 0 0 7772400 10058400] ∧
    exact_zoom 1000 * 72 = 1000 ∧
    (1000 : ℕ) ∉ (Finset.Icc (200 : ℕ) 300).image (fun C => min 1000 C) := by
  refine ⟨?_, ?_, ?_⟩
  · norm_num [process_page_exact, c8_page, pt2emu, py_trunc, PT_TO_EMU,
      Rect.width, Rect.height]
  · norm_num [exact_zoom]
  · simp only [Finset.mem_image, Finset.mem_Icc, not_exists, not_and]
    intro C hC
    omega

/-- C8 amended: figure-region rendering is capped at `min(dpi, 250)`,
complex-region rasterization at `min(dpi, 200)` — so every rendered region
in an editable page is at an effective resolution of at most 250 DPI — but
whole-page exact rendering uses the requested dpi uncapped. -/
theorem C8_dpi_caps :
    (∀ dpi : ℕ, figure_zoom dpi * 72 = ((min dpi 250 : ℕ) : ℚ)) ∧
    (∀ dpi : ℕ, complex_zoom dpi * 72 = ((min dpi 200 : ℕ) : ℚ)) ∧
    (∀ dpi : ℕ, exact_zoom dpi * 72 = (dpi : ℚ)) ∧
    (∀ (dpi : ℕ) (page : Page) (e : Element) (z : ℚ),
      e ∈ process_page_editable dpi page → raster_zoom e = some z →
      z * 72 ≤ 250) := by
  have hfig : ∀ dpi : ℕ, figure_zoom dpi * 72 = ((min dpi 250 : ℕ) : ℚ) := by
    intro dpi
    unfold figure_zoom
    exact div_mul_cancel₀ _ (by norm_num)
  have hcx : ∀ dpi : ℕ, complex_zoom dpi * 72 = ((min dpi 200 : ℕ) : ℚ) := by
    intro dpi
    unfold complex_zoom
    exact div_mul_cancel₀ _ (by norm_num)
  refine ⟨hfig, hcx, ?_, ?_⟩
  · intro dpi
    unfold exact_zoom
    exact div_mul_cancel₀ _ (by norm_num)
  · intro dpi page e z he hz
    unfold process_page_editable at he
    simp only [List.mem_append] at he
    rcases he with (((h | h) | h) | h) | h
    · obtain ⟨_, _, _, _, rfl⟩ := direct_images_floating page.images [] _ h
      simp [raster_zoom] at hz
    · obtain ⟨_, _, _, _, rfl⟩ := figure_elems_raster h
      simp only [raster_zoom, Option.some.injEq] at hz
      subst hz
      rw [hfig]
      have : (min dpi 250 : ℕ) ≤ 250 := min_le_right _ _
      exact_mod_cast this
    · rcases drawings_elems_shape page.drawings _ h with
        ⟨_, _, _, _, _, _, _, rfl, -, -⟩ | ⟨_, _, _, _, _, _, _, _, rfl⟩ <;>
        simp [raster_zoom] at hz
    · obtain ⟨_, _, _, _, rfl⟩ := complex_raster_elems_raster h
      simp only [raster_zoom, Option.some.injEq] at hz
      subst hz
      rw [hcx]
      have : (min dpi 200 : ℕ) ≤ 250 := le_trans (min_le_right _ _) (by norm_num)
      exact_mod_cast this
    · obtain ⟨s, rfl⟩ := text_elems_textbox h
      simp [raster_zoom, make_textbox] at hz

/-- A page with one curved drawing, rasterized through the complex-region
path. -/
def c8w_page : Page :=
  { rect := ⟨0, 0, 612, 792⟩, images := []
  , drawings := [{ items := [DrawItem.curve], rect := some ⟨0, 0, 100, 100⟩
                 , color := 0, fill := none, widthAttr := none }]
  , blocks := [], xobjects := [] }

/-- Witness for C8: the complex-region raster element of a concrete page
satisfies the 250 DPI bound. -/
theorem C8_witness : complex_zoom 300 * 72 ≤ 250 :=
  C8_dpi_caps.2.2.2 300 c8w_page
    (Element.rasterImage (complex_zoom 300) (pt2emu (-5)) (pt2emu (-5))
      (pt2emu 110) (pt2emu 110)) (complex_zoom 300)
    (by norm_num [process_page_editable, c8w_page, direct_image_elems,
      direct_images_go, detect_figure_regions, figure_elems, drawings_elems,
      drawing_elems_one, drawing_has_curves, complex_raster_elems, text_elems,
      group_spans_by_line, merge_rects, merge_aux, absorb_loop, absorb_pass,
      Rect.expandR, Rect.intersects, Rect.isEmptyR, Rect.inter, Rect.union,
      Rect.width, Rect.height])
    (by simp [raster_zoom])

-- ── Counting text boxes ─────────────────────────────────────────────────────

lemma emit_span_isSome (s : Span) :
    (emit_span s).isSome = !s.text.all Char.isWhitespace := by
  unfold emit_span
  split <;> simp_all

lemma filterMap_emit_length (l : List Span) :
    (l.filterMap emit_span).length = l.countP fun s => !s.text.all Char.isWhitespace := by
  rw [List.length_filterMap_eq_countP]
  congr 1
  funext s
  exact emit_span_isSome s

lemma countP_blank_filter (l : List Span) :
    (l.filter fun s => !s.text.isEmpty).countP (fun s => !s.text.all Char.isWhitespace) =
      l.countP fun s => !s.text.all Char.isWhitespace := by
  rw [List.countP_filter]
  congr 1
  funext s
  cases hs : s.text <;> simp [hs]

lemma keep_line_none_count {ln : Line} (hk : keep_line ln = none) :
    ln.spans.countP (fun s => !s.text.all Char.isWhitespace) = 0 := by
  unfold keep_line at hk
  split at hk
  · next hss =>
    rw [List.countP_eq_zero]
    intro s hs
    have hempty : s.text = [] := by
      by_contra hne
      have hq : (!s.text.isEmpty) = true := by
        simpa using hne
      have hmem : s ∈ ln.spans.filter fun s => !s.text.isEmpty :=
        List.mem_filter.mpr ⟨hs, hq⟩
      rw [List.isEmpty_iff.mp hss] at hmem
      simp at hmem
    simp [hempty]
  · exact absurd hk (by simp)

lemma keep_line_some {ln : Line} {lg : LineGroup} (hk : keep_line ln = some lg) :
    lg.spans = ln.spans.filter fun s => !s.text.isEmpty := by
  unfold keep_line at hk
  split at hk
  · exact absurd hk (by simp)
  · cases hk
    rfl

lemma lines_text_length (lines : List Line) :
    ((lines.filterMap keep_line).flatMap fun lg => lg.spans.filterMap emit_span).length =
      (lines.flatMap Line.spans).countP fun s => !s.text.all Char.isWhitespace := by
  induction lines with
  | nil => simp
  | cons ln rest ih =>
    rw [List.flatMap_cons, List.countP_append]
    cases hk : keep_line ln with
    | none => simp [List.filterMap_cons, hk, keep_line_none_count hk, ih]
    | some lg =>
      simp only [List.filterMap_cons, hk, List.flatMap_cons, List.length_append]
      rw [keep_line_some hk, filterMap_emit_length, countP_blank_filter, ih]

lemma text_elems_length (blocks : List Block) :
    (text_elems blocks).length = non_blank_span_count blocks := by
  unfold text_elems group_spans_by_line non_blank_span_count
  induction blocks with
  | nil => simp
  | cons b bs ih =>
    simp only [List.flatMap_cons, List.flatMap_append, List.length_append,
      List.countP_append]
    rw [ih]
    congr 1
    by_cases hb : b.type = 0
    · simp only [if_pos hb]
      exact lines_text_length b.lines
    · simp [if_neg hb]

lemma tb_direct (l : List ImageEntry) (seen : List ℕ) :
    (direct_images_go l seen).1.countP is_textbox = 0 := by
  rw [List.countP_eq_zero]
  intro e he
  obtain ⟨_, _, _, _, rfl⟩ := direct_images_floating l seen e he
  simp [is_textbox]

lemma tb_figure (dpi : ℕ) (figs : List Rect) :
    (figure_elems dpi figs).countP is_textbox = 0 := by
  rw [List.countP_eq_zero]
  intro e he
  obtain ⟨_, _, _, _, rfl⟩ := figure_elems_raster he
  simp [is_textbox]

lemma tb_draw (ds : List Drawing) :
    (drawings_elems ds).1.countP is_textbox = 0 := by
  rw [List.countP_eq_zero]
  intro e he
  rcases drawings_elems_shape ds e he with
    ⟨_, _, _, _, _, _, _, rfl, -, -⟩ | ⟨_, _, _, _, _, _, _, _, rfl⟩ <;>
    simp [is_textbox]

lemma tb_complex (dpi : ℕ) (rs : List Rect) :
    (complex_raster_elems dpi rs).countP is_textbox = 0 := by
  rw [List.countP_eq_zero]
  intro e he
  obtain ⟨_, _, _, _, rfl⟩ := complex_raster_elems_raster he
  simp [is_textbox]

lemma tb_text (blocks : List Block) :
    (text_elems blocks).countP is_textbox = (text_elems blocks).length := by
  rw [List.countP_eq_length]
  intro e he
  obtain ⟨s, rfl⟩ := text_elems_textbox he
  simp [is_textbox, make_textbox]

-- ── C1: there is no fidelity gate ───────────────────────────────────────────

/-- C1 amended: `convert_pdf_to_docx` computes no coverage ratio and never
discards a reconstruction.  In every editable page output the number of
emitted text boxes equals the number of non-blank spans of the page model —
whatever the extracted-to-source character coverage is — and every mode
other than `"exact"` processes all requested pages in editable mode.
Full-page rasterization happens only in `"exact"` mode, independent of any
coverage measurement. -/
theorem C1_no_fidelity_gate :
    (∀ (dpi : ℕ) (page : Page),
      textbox_count (process_page_editable dpi page) =
        non_blank_span_count page.blocks) ∧
    (∀ (mode : String) (dpi : ℕ) (pages : List Page), mode ≠ "exact" →
      convert_run mode dpi pages = pages.map (process_page_editable dpi)) := by
  constructor
  · intro dpi page
    have h1 := tb_direct page.images []
    have h2 := tb_figure dpi
      (detect_figure_regions page (direct_images_go page.images []).2)
    have h3 := tb_draw page.drawings
    have h4 := tb_complex dpi (drawings_elems page.drawings).2
    have h5 := tb_text page.blocks
    have h6 := text_elems_length page.blocks
    unfold textbox_count process_page_editable direct_image_elems
    simp only [List.countP_append, h1, h2, h3, h4, h5, h6]
    omega
  · intro mode dpi pages h
    unfold convert_run
    simp [h]

/-- C1 counterexample page: one line with a two-character span and a
blank (single-space) span; extracted characters 2 of 3 source characters,
a coverage ratio of 2/3 < 0.95. -/
def c1_page : Page :=
  { rect := ⟨0, 0, 612, 792⟩, images := [], drawings := []
  , blocks := [{ type := 0, bbox := ⟨0, 0, 100, 20⟩
               , lines := [{ bbox := ⟨0, 0, 100, 20⟩
                           , spans := [ { text := ['H', 'i'], bbox := ⟨0, 0, 20, 12⟩
                                        , font := [], size := 12, flags := 0, color := 0 }
                                      , { text := [' '], bbox := ⟨20, 0, 90, 12⟩
                                        , font := [], size := 12, flags := 0, color := 0 } ] }] }]
  , xobjects := [] }

/-- C1 counterexample: on `c1_page` the coverage ratio is below 0.95
(100·extracted < 95·source), yet the editable output still contains a text
box — the run is not rejected and the reconstruction is not replaced by
full-page rasterized images with zero text elements. -/
theorem C1_counterexample :
    100 * extracted_text_chars (process_page_editable 300 c1_page) <
      95 * source_char_count c1_page ∧
    textbox_count (process_page_editable 300 c1_page) ≠ 0 := by
  norm_num [process_page_editable, c1_page, direct_image_elems, direct_images_go,
    detect_figure_regions, figure_elems, drawings_elems, complex_raster_elems,
    text_elems, group_spans_by_line, keep_line, emit_span, merge_rects, merge_aux,
    extracted_text_chars, element_text_chars, source_char_count, textbox_count,
    is_textbox, make_textbox, List.countP_cons, List.filterMap_cons,
    show ('H'.isWhitespace) = false from rfl, show ('i'.isWhitespace) = false from rfl,
    show (' '.isWhitespace) = true from rfl]

/-- Witness for C1 on a concrete page list in the CLI default mode. -/
theorem C1_witness :
    convert_run "image" 300 [c1_page] = [c1_page].map (process_page_editable 300) :=
  C1_no_fidelity_gate.2 "image" 300 [c1_page] (by decide)
